import Mathlib

/-!
Shallow embedding of the CLOCK (second-chance) cache from `src/main.rs`.

The single-shard engine `ClockMap` (fields `value_map`, `clock_list`,
`pointer`, `miss`, `capacity`) and the sharding layer `ClockDashMap`
(fields `num_shards`, `shards`, `key_shard`, `next_modify`) are translated
field by field from the Rust source.  Rust's `HashMap` is modelled as an
association list with replace-on-insert semantics (`alookup`, `ainsert`,
`aremove`); only lookup semantics are relevant.  A Rust panic (index out
of bounds, `unwrap` on `None`) is modelled by returning `none` from the
operation, so every operation returns an `Option` of its Rust result.
Lock acquisition in `ClockDashMap` is modelled separately by the
lock-acquisition traces `insertLockTrace` / `readLockTrace`; the state
transformers `ClockDashMap.insert` / `ClockDashMap.read` give the data
flow of the source, treating each lock acquisition as succeeding.
-/

variable {K V : Type} [DecidableEq K]

/-- Association-list lookup, modelling `HashMap::get` / `contains_key`. -/
def alookup : List (K × α) → K → Option α
  | [], _ => none
  | (k, w) :: rest, key => if k = key then some w else alookup rest key

/-- Association-list insert with replacement, modelling `HashMap::insert`. -/
def ainsert : List (K × α) → K → α → List (K × α)
  | [], key, w => [(key, w)]
  | (k, w0) :: rest, key, w =>
    if k = key then (key, w) :: rest else (k, w0) :: ainsert rest key w

/-- Association-list removal, modelling `HashMap::remove`. -/
def aremove : List (K × α) → K → List (K × α)
  | [], _ => []
  | (k, w0) :: rest, key => if k = key then rest else (k, w0) :: aremove rest key

/-- `Entry` from the source: one occupied slot of the circular buffer. -/
structure Entry (K : Type) where
  second_chance : Bool
  key : K
deriving DecidableEq

/-- `MapEntry` from the source: the per-key record held in `value_map`. -/
structure MapEntry (V : Type) where
  value : V
  index : Nat
deriving DecidableEq

/-- `ClockMap` from the source: one single-threaded CLOCK store. -/
structure ClockMap (K V : Type) where
  value_map : List (K × MapEntry V)
  clock_list : List (Option (Entry K))
  pointer : Nat
  miss : Int
  capacity : Nat
deriving DecidableEq

/-- `ClockMap::new(cap)`. -/
def ClockMap.new (cap : Nat) : ClockMap K V :=
  { value_map := []
    clock_list := List.replicate cap none
    pointer := 0
    miss := 0
    capacity := cap }

/-- `ClockMap::read`.  Returns `none` on a Rust panic (the index stored in
`value_map` falling outside `clock_list`), otherwise the updated store and
the Rust return value. -/
def ClockMap.read (m : ClockMap K V) (key : K) : Option (ClockMap K V × Option V) :=
  match alookup m.value_map key with
  | none => some (m, none)
  | some me =>
    match m.clock_list.get? me.index with
    | none => none
    | some none => some (m, none)
    | some (some e) =>
      if e.key = key then
        some ({ m with clock_list :=
                  m.clock_list.set me.index (some { e with second_chance := true }) },
              some me.value)
      else some (m, none)

/-- The sweep loop of `ClockMap::insert` (`for i in pointer..pointer+capacity`),
given the list of loop-counter values still to visit.  Returns the list of
examined counter values together with the resulting store (`none` = panic).
Note the source's asymmetry, kept here: the slot examined is
`clock_list[i % capacity]`, but the empty-slot arm writes `clock_list[i]`
and both placing arms record `index: i` unreduced in the `MapEntry`. -/
def sweepGo (key : K) (v : V) : ClockMap K V → List Nat → List Nat × Option (ClockMap K V)
  | m, [] => ([], some m)
  | m, i :: rest =>
    match m.clock_list.get? (i % m.capacity) with
    | none => ([i], none)
    | some none =>
      if i < m.clock_list.length then
        ([i], some { value_map := ainsert m.value_map key ⟨v, i⟩
                     clock_list := m.clock_list.set i (some ⟨false, key⟩)
                     pointer := (i + 1) % m.capacity
                     miss := m.miss + 1
                     capacity := m.capacity })
      else ([i], none)
    | some (some e) =>
      if e.second_chance then
        let m2 : ClockMap K V :=
          { m with clock_list :=
              m.clock_list.set (i % m.capacity) (some { e with second_chance := false }) }
        let r := sweepGo key v m2 rest
        (i :: r.1, r.2)
      else
        ([i], some { value_map := ainsert (aremove m.value_map e.key) key ⟨v, i⟩
                     clock_list := m.clock_list.set (i % m.capacity) (some ⟨false, key⟩)
                     pointer := (i + 1) % m.capacity
                     miss := m.miss + 1
                     capacity := m.capacity })

/-- `ClockMap::insert`.  Returns `none` on a Rust panic. -/
def ClockMap.insert (m : ClockMap K V) (key : K) (v : V) : Option (ClockMap K V) :=
  match alookup m.value_map key with
  | some me =>
    match m.clock_list.get? me.index with
    | none => none
    | some none => none
    | some (some e) =>
      if e.key = key then
        some { m with
                 clock_list :=
                   m.clock_list.set me.index (some { e with second_chance := true })
                 value_map := ainsert m.value_map key ⟨v, me.index⟩ }
      else some m
  | none => (sweepGo key v m (List.range' m.pointer m.capacity)).2

/-- The examined loop-counter values of one new-key sweep. -/
def ClockMap.sweepExams (m : ClockMap K V) (key : K) (v : V) : List Nat :=
  (sweepGo key v m (List.range' m.pointer m.capacity)).1

/-- An operation on a single store. -/
inductive Op (K V : Type) where
  | put (key : K) (v : V)
  | get (key : K)
deriving DecidableEq

/-- One operation on a single store (`none` = panic). -/
def stepOp (m : ClockMap K V) : Op K V → Option (ClockMap K V)
  | .put k v => m.insert k v
  | .get k => (m.read k).map Prod.fst

/-- Run a list of operations on a fresh store of the given capacity. -/
def run (cap : Nat) (ops : List (Op K V)) : Option (ClockMap K V) :=
  ops.foldl (fun acc op => acc.bind (fun m => stepOp m op)) (some (ClockMap.new cap))

/-- `ClockDashMap` from the source: the sharding layer, with its mutable
key-to-shard directory `key_shard` and round-robin counter `next_modify`. -/
structure ClockDashMap (K V : Type) where
  num_shards : Nat
  shards : List (ClockMap K V)
  key_shard : List (K × Nat)
  next_modify : Nat
deriving DecidableEq

/-- Per-shard capacity from `ClockDashMap::new`:
`(cap - cap % num_shards) / num_shards`, the remainder going to the last shard. -/
def thisCap (cap n i : Nat) : Nat :=
  (cap - cap % n) / n + (if i = n - 1 then cap % n else 0)

/-- `ClockDashMap::new(cap)`; the shard count (from `num_cpus`) is a parameter. -/
def ClockDashMap.new (cap n : Nat) : ClockDashMap K V :=
  { num_shards := n
    shards := (List.range n).map (fun i => ClockMap.new (thisCap cap n i))
    key_shard := []
    next_modify := 0 }

/-- Data flow of `ClockDashMap::insert`: route through the `key_shard`
directory when the key is present, otherwise assign the shard from the
`next_modify` round-robin counter and record it in the directory.
Lock acquisition is modelled by `insertLockTrace`. -/
def ClockDashMap.insert (c : ClockDashMap K V) (key : K) (v : V) :
    Option (ClockDashMap K V) :=
  match alookup c.key_shard key with
  | some shard_idx =>
    match c.shards.get? shard_idx with
    | none => none
    | some sh =>
      (sh.insert key v).map (fun sh2 => { c with shards := c.shards.set shard_idx sh2 })
  | none =>
    let shard_idx := c.next_modify
    let c2 : ClockDashMap K V :=
      { c with next_modify := (c.next_modify + 1) % c.num_shards
               key_shard := ainsert c.key_shard key shard_idx }
    match c2.shards.get? shard_idx with
    | none => none
    | some sh =>
      (sh.insert key v).map (fun sh2 => { c2 with shards := c2.shards.set shard_idx sh2 })

/-- Data flow of `ClockDashMap::read`: route through the `key_shard` directory. -/
def ClockDashMap.read (c : ClockDashMap K V) (key : K) :
    Option (ClockDashMap K V × Option V) :=
  match alookup c.key_shard key with
  | some shard_idx =>
    match c.shards.get? shard_idx with
    | none => none
    | some sh =>
      (sh.read key).map (fun p => ({ c with shards := c.shards.set shard_idx p.1 }, p.2))
  | none => some (c, none)

/-- An operation on the sharded cache. -/
inductive DashOp (K V : Type) where
  | dput (key : K) (v : V)
  | dget (key : K)
deriving DecidableEq

/-- One operation on the sharded cache (`none` = panic). -/
def dashStep (c : ClockDashMap K V) : DashOp K V → Option (ClockDashMap K V)
  | .dput k v => c.insert k v
  | .dget k => (c.read k).map Prod.fst

/-- Run a list of operations on a fresh sharded cache. -/
def runDash (cap n : Nat) (ops : List (DashOp K V)) : Option (ClockDashMap K V) :=
  ops.foldl (fun acc op => acc.bind (fun c => dashStep c op)) (some (ClockDashMap.new cap n))

/-- The mutexes of `ClockDashMap`: the `key_shard` directory lock, the
`next_modify` counter lock, and one lock per shard. -/
inductive LockId where
  | keyShardLock
  | nextModifyLock
  | shardLock (i : Nat)
deriving DecidableEq

/-- Lock acquisitions attempted by `ClockDashMap::insert`, in source order.
Every `MutexGuard` in the source lives to the end of the call, so nothing is
released between acquisitions.  On the new-key path the source re-locks
`next_modify` (line `let mut next_modify = self.next_modify.lock()...` while
`shard_idx` still holds it) and re-locks `key_shard` likewise. -/
def insertLockTrace (isNew : Bool) (i : Nat) : List LockId :=
  if isNew then
    [LockId.keyShardLock, LockId.nextModifyLock, LockId.nextModifyLock,
     LockId.keyShardLock, LockId.shardLock i]
  else
    [LockId.keyShardLock, LockId.shardLock i]

/-- Lock acquisitions attempted by `ClockDashMap::read`, in source order. -/
def readLockTrace (found : Bool) (i : Nat) : List LockId :=
  if found then [LockId.keyShardLock, LockId.shardLock i] else [LockId.keyShardLock]

/-- A call self-deadlocks iff it attempts to re-acquire a (non-reentrant
`std::sync::Mutex`) lock it already holds; since no guard is released before
the call ends, that is a duplicate in the acquisition trace. -/
def selfDeadlocks (l : List LockId) : Prop := ¬ l.Nodup

/-- Whether a lock is a shard lock. -/
def isShardLock : LockId → Bool
  | .shardLock _ => true
  | _ => false

/-- The failing operation sequence for the out-of-range stored index:
capacity 2, two cold inserts, a read refreshing the second slot, then two
more cold inserts; the last eviction happens at loop counter `i = 2`. -/
def opsBug : List (Op Nat Nat) :=
  [Op.put 10 10, Op.put 20 20, Op.get 20, Op.put 30 30, Op.put 40 40]

/-- Scenario A input: the key sequence of `tests::test_1`. -/
def opsA : List (Op Nat Nat) :=
  [0, 4, 1, 4, 2, 4, 3, 4, 2, 4, 0, 4, 1, 4, 2, 4, 3, 4].map (fun k => Op.put k k)

/-! ### Helper lemmas (shared) -/

theorem alookup_ainsert_self (l : List (K × α)) (k : K) (w : α) :
    alookup (ainsert l k w) k = some w := by
  induction l with
  | nil => simp [ainsert, alookup]
  | cons p rest ih =>
    obtain ⟨k0, w0⟩ := p
    by_cases h : k0 = k
    · simp [ainsert, alookup, h]
    · simp [ainsert, alookup, h, ih]

theorem alookup_ainsert_ne (l : List (K × α)) (k k2 : K) (w : α) (h : k2 ≠ k) :
    alookup (ainsert l k w) k2 = alookup l k2 := by
  have hk : ¬ (k = k2) := fun h2 => h h2.symm
  induction l with
  | nil => simp [ainsert, alookup, hk]
  | cons p rest ih =>
    obtain ⟨k0, w0⟩ := p
    by_cases h0 : k0 = k
    · subst h0
      simp [ainsert, alookup, hk]
    · simp [ainsert, alookup, h0, ih]

theorem sweep_cases (key : K) (v : V) :
    ∀ (l : List Nat) (m m2 : ClockMap K V), (sweepGo key v m l).2 = some m2 →
      (m2.value_map = m.value_map ∧ m2.miss = m.miss) ∨
      (m2.miss = m.miss + 1 ∧ alookup m2.value_map key ≠ none) := by
  intro l
  induction l with
  | nil =>
    intro m m2 h
    simp [sweepGo] at h
    subst h; left; exact ⟨rfl, rfl⟩
  | cons i rest ih =>
    intro m m2 h
    simp only [sweepGo] at h
    match hg : m.clock_list.get? (i % m.capacity) with
    | none => rw [hg] at h; simp at h
    | some none =>
      rw [hg] at h
      by_cases hlen : i < m.clock_list.length
      · simp [hlen] at h
        right
        refine ⟨by rw [← h], ?_⟩
        rw [← h]
        simp [alookup_ainsert_self]
      · simp [hlen] at h
    | some (some e) =>
      rw [hg] at h
      by_cases hsc : e.second_chance = true
      · simp [hsc] at h
        have := ih _ m2 h
        simpa using this
      · simp [hsc] at h
        right
        refine ⟨by rw [← h], ?_⟩
        rw [← h]
        simp [alookup_ainsert_self]

theorem sweep_trace_take (key : K) (v : V) :
    ∀ (l : List Nat) (m : ClockMap K V),
      ∃ n, n ≤ l.length ∧ (sweepGo key v m l).1 = l.take n := by
  intro l
  induction l with
  | nil => intro m; exact ⟨0, by simp, by simp [sweepGo]⟩
  | cons i rest ih =>
    intro m
    rcases hg : m.clock_list[i % m.capacity]? with _ | (_ | e)
    · exact ⟨1, by simp, by simp [sweepGo, hg]⟩
    · by_cases hlen : i < m.clock_list.length
      · exact ⟨1, by simp, by simp [sweepGo, hg, hlen]⟩
      · exact ⟨1, by simp, by simp [sweepGo, hg, hlen]⟩
    · cases hsc : e.second_chance with
      | false => exact ⟨1, by simp, by simp [sweepGo, hg, hsc]⟩
      | true =>
        obtain ⟨n, hn, htr⟩ :=
          ih { m with clock_list :=
                 m.clock_list.set (i % m.capacity) (some { e with second_chance := false }) }
        refine ⟨n + 1, by simp; omega, ?_⟩
        simp [sweepGo, hg, hsc, htr]

theorem nodup_range'_mod (p c : Nat) :
    ((List.range' p c).map (fun i => i % c)).Nodup := by
  rcases Nat.eq_zero_or_pos c with hc | hc
  · subst hc; simp
  · refine List.Nodup.map_on ?_ (List.nodup_range' p c)
    intro x hx y hy hxy
    rw [List.mem_range'_1] at hx hy
    by_contra hne
    rcases Nat.lt_or_ge x y with hlt | hge
    · have hdvd : c ∣ y - x := (Nat.modEq_iff_dvd' (Nat.le_of_lt hlt)).1 hxy
      have := Nat.le_of_dvd (by omega) hdvd
      omega
    · have hlt : y < x := by omega
      have hdvd : c ∣ x - y := (Nat.modEq_iff_dvd' (Nat.le_of_lt hlt)).1 hxy.symm
      have := Nat.le_of_dvd (by omega) hdvd
      omega

theorem read_fields (m : ClockMap K V) (key : K) (r : ClockMap K V × Option V)
    (h : m.read key = some r) :
    r.1.value_map = m.value_map ∧ r.1.pointer = m.pointer ∧
      r.1.miss = m.miss ∧ r.1.capacity = m.capacity := by
  unfold ClockMap.read at h
  split at h
  · injection h with h2
    subst h2
    exact ⟨rfl, rfl, rfl, rfl⟩
  · split at h
    · exact absurd h (by simp)
    · injection h with h2
      subst h2
      exact ⟨rfl, rfl, rfl, rfl⟩
    · split at h
      · injection h with h2
        subst h2
        exact ⟨rfl, rfl, rfl, rfl⟩
      · injection h with h2
        subst h2
        exact ⟨rfl, rfl, rfl, rfl⟩

/-! ### Claim theorems -/

/-- Claim C2 (code bug): after the reachable sequence `opsBug` on a store of
capacity 2, key 40 is present in the index with recorded slot index 2, which
is not a valid position in the 2-element slot array — invariant I1 fails.
The eviction arm of `ClockMap::insert` records the raw loop counter `i`
instead of `i % capacity` in the `MapEntry`. -/
theorem c2_index_out_of_range :
    ((run 2 opsBug).bind (fun m => alookup m.value_map 40)) = some ⟨40, 2⟩ ∧
      (run 2 opsBug).map (fun m => m.clock_list.length) = some 2 ∧
      ¬ (2 : Nat) < 2 := by
  exact ⟨rfl, rfl, by omega⟩

/-- Claim C3 (code bug): at the reachable state produced by `opsBug`, key 40
is in the index, yet `ClockMap::read 40` panics (models as `none`): the
recorded slot index 2 is out of bounds for the 2-element slot array, so the
claim that read never fails is violated by the code. -/
theorem c3_read_panics :
    ((run 2 opsBug).bind (fun m => m.read 40)) = none ∧
      (((run 2 opsBug).bind (fun m => alookup m.value_map 40)).isSome = true) := by
  exact ⟨rfl, rfl⟩

/-- Claim C5 (code bug): at the reachable state produced by `opsBug`, key 40
is in the index, yet a put of the existing key 40 panics (models as `none`)
instead of overwriting the value in place: the hit path indexes
`clock_list` with the out-of-range stored slot index 2. -/
theorem c5_update_panics :
    ((run 2 opsBug).bind (fun m => m.insert 40 99)) = none ∧
      (((run 2 opsBug).bind (fun m => alookup m.value_map 40)).isSome = true) := by
  exact ⟨rfl, rfl⟩

/-- Claim C9: on a single store of capacity 3, inserting the scenario-A key
sequence (each value equal to its key) completes without panic and leaves
`miss` equal to 9, exactly as `tests::test_1` asserts. -/
theorem c9_scenarioA : (run 3 opsA).map ClockMap.miss = some 9 := by
  rfl

/-- Claim C4 counterexample: a put of a new key does not always increment
`miss_count` by exactly 1.  On a store of capacity 0 the sweep range is
empty, so `put(1, 1)` leaves the store (and `miss = 0`) unchanged; and on a
store of capacity 1 whose only slot has its second-chance flag set
(after `put 0; get 0`), the new-key `put 1` clears the flag, stores
nothing, and leaves `miss = 1` instead of 2. -/
theorem c4_counterexample :
    (ClockMap.new 0 : ClockMap Nat Nat).insert 1 1 = some (ClockMap.new 0) ∧
      (ClockMap.new 0 : ClockMap Nat Nat).miss = 0 ∧
      (run 1 [Op.put 0 0, Op.get 0, Op.put 1 1]).map ClockMap.miss = some 1 := by
  exact ⟨rfl, rfl, rfl⟩

/-- Claim C6 counterexample: a new-key put on a store of positive capacity
does not always place the entry.  With capacity 1, after `put 0; get 0`
every slot is occupied with its flag set, so the sweep of `put 1` clears
the flags for a full lap and ends without placing: key 1 is absent
afterwards, nothing was evicted, and no empty slot remained. -/
theorem c6_counterexample :
    ((run 1 [Op.put 0 0, Op.get 0, Op.put 1 1]).bind
        (fun m => alookup m.value_map 1)) = none ∧
      (run 1 [Op.put 0 0, Op.get 0, Op.put 1 1]).map ClockMap.capacity = some 1 ∧
      ((run 1 [Op.put 0 0, Op.get 0, Op.put 1 1]).bind
        (fun m => alookup m.value_map 0)).isSome = true := by
  exact ⟨rfl, rfl, rfl⟩

/-- Claim C8 counterexample: `ClockDashMap` operations acquire locks other
than the target shard's.  Even the existing-key put path holds the global
`key_shard` directory lock, and the new-key put path re-acquires the
already-held `next_modify` and `key_shard` mutexes, so it self-deadlocks:
its acquisition trace repeats a lock that is still held. -/
theorem c8_counterexample :
    LockId.keyShardLock ∈ insertLockTrace false 0 ∧
      selfDeadlocks (insertLockTrace true 0) ∧
      LockId.keyShardLock ∈ readLockTrace true 0 := by
  refine ⟨by decide, ?_, by decide⟩
  unfold selfDeadlocks insertLockTrace
  decide

/-- Claim C8 amended: every operation acquires at most one shard lock, but
each also takes the global `key_shard` directory lock first; a read and an
existing-key put acquire each lock once and cannot self-deadlock, while a
new-key put re-acquires the held `next_modify` and `key_shard` locks and
therefore self-deadlocks — deadlock is reachable on the first put of any
new key. -/
theorem c8_lock_traces (b : Bool) (i : Nat) :
    (insertLockTrace b i).countP isShardLock ≤ 1 ∧
      (readLockTrace b i).countP isShardLock ≤ 1 ∧
      LockId.keyShardLock ∈ insertLockTrace b i ∧
      LockId.keyShardLock ∈ readLockTrace b i ∧
      selfDeadlocks (insertLockTrace true i) ∧
      ¬ selfDeadlocks (insertLockTrace false i) ∧
      ¬ selfDeadlocks (readLockTrace b i) := by
  unfold insertLockTrace readLockTrace selfDeadlocks isShardLock
  cases b <;> simp [List.countP_cons, List.countP_nil, List.nodup_cons]

/-- Claim C1 counterexample: shard assignment is not `hash(key) mod shard_count`.
With 2 shards, the shard recorded for key 5 in the mutable `key_shard`
directory depends on the order of earlier inserts of other keys: inserted
first it goes to shard 0, inserted after key 7 it goes to shard 1, so no
function of the key alone (in particular no `hash(key) mod 2`) computes it. -/
theorem c1_counterexample :
    ((runDash 0 2 [DashOp.dput 5 5] : Option (ClockDashMap Nat Nat)).bind
        (fun c => alookup c.key_shard 5)) = some 0 ∧
      ((runDash 0 2 [DashOp.dput 7 7, DashOp.dput 5 5]).bind
        (fun c => alookup c.key_shard 5)) = some 1 ∧
      ¬ ∃ f : Nat → Nat, ∀ (ops : List (DashOp Nat Nat)) (k s : Nat),
          ((runDash 0 2 ops).bind (fun c => alookup c.key_shard k)) = some s →
            s = f k % 2 := by
  refine ⟨rfl, rfl, ?_⟩
  rintro ⟨f, hf⟩
  have h1 := hf [DashOp.dput 5 5] 5 0 rfl
  have h2 := hf [DashOp.dput 7 7, DashOp.dput 5 5] 5 1 rfl
  omega

/-- Claim C1 amended: shard assignment is recorded in the mutable `key_shard`
directory at a key's first put (from the round-robin `next_modify` counter,
not from a hash), and once recorded it is never changed by any later put or
get, so a key's shard is stable for the cache's lifetime. -/
theorem c1_directory_stable (c c2 : ClockDashMap K V) (k : K) (i : Nat)
    (op : DashOp K V) (h : alookup c.key_shard k = some i)
    (h2 : dashStep c op = some c2) :
    alookup c2.key_shard k = some i := by
  cases op with
  | dput k2 v =>
    simp only [dashStep] at h2
    unfold ClockDashMap.insert at h2
    split at h2
    · split at h2
      · exact absurd h2 (by simp)
      · rw [Option.map_eq_some'] at h2
        obtain ⟨sh2, hsh2, hc2⟩ := h2
        rw [← hc2]
        exact h
    · rename_i hnone
      have hne : k ≠ k2 := by
        intro hkk
        rw [hkk] at h
        rw [hnone] at h
        exact absurd h (by simp)
      dsimp only at h2
      split at h2
      · exact absurd h2 (by simp)
      · rw [Option.map_eq_some'] at h2
        obtain ⟨sh2, hsh2, hc2⟩ := h2
        rw [← hc2]
        simpa [alookup_ainsert_ne _ _ _ _ hne] using h
  | dget k2 =>
    simp only [dashStep] at h2
    rw [Option.map_eq_some'] at h2
    obtain ⟨p, hp, hc2⟩ := h2
    unfold ClockDashMap.read at hp
    split at hp
    · split at hp
      · exact absurd hp (by simp)
      · rw [Option.map_eq_some'] at hp
        obtain ⟨q, hq, hpv⟩ := hp
        rw [← hc2, ← hpv]
        exact h
    · rw [← hc2]
      injection hp with hp2
      rw [← hp2]
      exact h

/-- Claim C4 amended: `miss` grows by at most 1 per put; a put of an existing
key and a get never change it; and a put of a new key increments it by
exactly 1 precisely when the sweep places the entry (the key is in the index
afterwards) — otherwise (capacity 0, or a full lap of flagged slots) `miss`
is unchanged. -/
theorem c4_miss_growth (m m2 : ClockMap K V) (k : K) (v : V)
    (r : ClockMap K V × Option V)
    (hi : m.insert k v = some m2) (hr : m.read k = some r) :
    m2.miss ≤ m.miss + 1 ∧
      (alookup m.value_map k ≠ none → m2.miss = m.miss) ∧
      (alookup m.value_map k = none →
        (m2.miss = m.miss + 1 ↔ alookup m2.value_map k ≠ none)) ∧
      r.1.miss = m.miss := by
  have hins : m2.miss ≤ m.miss + 1 ∧
      (alookup m.value_map k ≠ none → m2.miss = m.miss) ∧
      (alookup m.value_map k = none →
        (m2.miss = m.miss + 1 ↔ alookup m2.value_map k ≠ none)) := by
    unfold ClockMap.insert at hi
    split at hi
    · rename_i me hme
      split at hi
      · exact absurd hi (by simp)
      · exact absurd hi (by simp)
      · split at hi
        · injection hi with hi2
          rw [← hi2]
          refine ⟨by show m.miss ≤ m.miss + 1; omega, fun _ => rfl, fun hc => ?_⟩
          rw [hme] at hc
          exact absurd hc (by simp)
        · injection hi with hi2
          rw [← hi2]
          refine ⟨by omega, fun _ => rfl, fun hc => ?_⟩
          rw [hme] at hc
          exact absurd hc (by simp)
    · rename_i hme
      rcases sweep_cases k v (List.range' m.pointer m.capacity) m m2 hi with
        ⟨hvm, hms⟩ | ⟨hms, hne⟩
      · refine ⟨by omega, fun hc => absurd hme hc, fun _ => ?_⟩
        constructor
        · intro hplus
          rw [hms] at hplus
          omega
        · intro hlk
          rw [hvm, hme] at hlk
          exact absurd rfl hlk
      · refine ⟨by omega, fun hc => absurd hme hc, fun _ => ?_⟩
        exact ⟨fun _ => hne, fun _ => hms⟩
  exact ⟨hins.1, hins.2.1, hins.2.2, (read_fields m k r hr).2.2.1⟩

/-- The store produced by `put 0 5` on a fresh store of capacity 1. -/
def m4 : ClockMap Nat Nat :=
  { value_map := [(0, ⟨5, 0⟩)]
    clock_list := [some ⟨false, 0⟩]
    pointer := 0
    miss := 1
    capacity := 1 }

/-- Claim C4 amended, witnessed on a fresh store of capacity 1 and the
new-key put `put 0 5`. -/
theorem c4_miss_growth_witness :
    m4.miss ≤ (ClockMap.new 1 : ClockMap Nat Nat).miss + 1 ∧
      (alookup (ClockMap.new 1 : ClockMap Nat Nat).value_map 0 ≠ none →
        m4.miss = (ClockMap.new 1 : ClockMap Nat Nat).miss) ∧
      (alookup (ClockMap.new 1 : ClockMap Nat Nat).value_map 0 = none →
        (m4.miss = (ClockMap.new 1 : ClockMap Nat Nat).miss + 1 ↔
          alookup m4.value_map 0 ≠ none)) ∧
      ((ClockMap.new 1 : ClockMap Nat Nat), (none : Option Nat)).1.miss =
        (ClockMap.new 1 : ClockMap Nat Nat).miss :=
  c4_miss_growth (ClockMap.new 1) m4 0 5 (ClockMap.new 1, none) rfl rfl

/-- Claim C6 amended: a put of a new key examines loop counters
`hand, hand+1, …` in order (the examined list is an initial segment of that
range), performs at most `capacity` examinations, visits each slot index at
most once (never a second lap), and either places the entry — the key is in
the index afterwards — or, when a full lap finds only flagged slots, clears
flags and leaves the index and `miss` unchanged. -/
theorem c6_sweep_bound (m m2 : ClockMap K V) (k : K) (v : V)
    (hnew : alookup m.value_map k = none) (hi : m.insert k v = some m2) :
    (m.sweepExams k v).length ≤ m.capacity ∧
      m.sweepExams k v =
        (List.range' m.pointer m.capacity).take (m.sweepExams k v).length ∧
      ((m.sweepExams k v).map (fun i => i % m.capacity)).Nodup ∧
      (alookup m2.value_map k ≠ none ∨
        (m2.value_map = m.value_map ∧ m2.miss = m.miss)) := by
  obtain ⟨n, hn, htr⟩ := sweep_trace_take k v (List.range' m.pointer m.capacity) m
  have hrlen : (List.range' m.pointer m.capacity).length = m.capacity :=
    List.length_range' _ _ _
  have hlen : (m.sweepExams k v).length = n := by
    rw [ClockMap.sweepExams, htr, List.length_take, hrlen]
    omega
  refine ⟨?_, ?_, ?_, ?_⟩
  · rw [hlen]
    omega
  · rw [hlen, ClockMap.sweepExams, htr]
  · have hsub : List.Sublist (m.sweepExams k v) (List.range' m.pointer m.capacity) := by
      rw [ClockMap.sweepExams, htr]
      exact List.take_sublist _ _
    exact List.Nodup.sublist (List.Sublist.map _ hsub) (nodup_range'_mod _ _)
  · have hi2 : (sweepGo k v m (List.range' m.pointer m.capacity)).2 = some m2 := by
      unfold ClockMap.insert at hi
      rw [hnew] at hi
      exact hi
    rcases sweep_cases k v (List.range' m.pointer m.capacity) m m2 hi2 with
      ⟨hvm, hms⟩ | ⟨hms, hne⟩
    · exact Or.inr ⟨hvm, hms⟩
    · exact Or.inl hne

/-- The store produced by `put 0 7` on a fresh store of capacity 2. -/
def m6 : ClockMap Nat Nat :=
  { value_map := [(0, ⟨7, 0⟩)]
    clock_list := [some ⟨false, 0⟩, none]
    pointer := 1
    miss := 1
    capacity := 2 }

/-- Claim C6 amended, witnessed on a fresh store of capacity 2 and the
new-key put `put 0 7`. -/
theorem c6_sweep_bound_witness :
    ((ClockMap.new 2 : ClockMap Nat Nat).sweepExams 0 7).length ≤
        (ClockMap.new 2 : ClockMap Nat Nat).capacity ∧
      (ClockMap.new 2 : ClockMap Nat Nat).sweepExams 0 7 =
        (List.range' (ClockMap.new 2 : ClockMap Nat Nat).pointer
            (ClockMap.new 2 : ClockMap Nat Nat).capacity).take
          ((ClockMap.new 2 : ClockMap Nat Nat).sweepExams 0 7).length ∧
      (((ClockMap.new 2 : ClockMap Nat Nat).sweepExams 0 7).map
          (fun i => i % (ClockMap.new 2 : ClockMap Nat Nat).capacity)).Nodup ∧
      (alookup m6.value_map 0 ≠ none ∨
        (m6.value_map = (ClockMap.new 2 : ClockMap Nat Nat).value_map ∧
          m6.miss = (ClockMap.new 2 : ClockMap Nat Nat).miss)) :=
  c6_sweep_bound (ClockMap.new 2) m6 0 7 rfl rfl

theorem run_zero (ops : List (Op K V)) : run 0 ops = some (ClockMap.new 0) := by
  induction ops with
  | nil => rfl
  | cons op rest ih =>
    have hstep : stepOp (ClockMap.new 0 : ClockMap K V) op = some (ClockMap.new 0) := by
      cases op <;> rfl
    simp only [run, List.foldl_cons] at ih ⊢
    rw [Option.some_bind, hstep]
    exact ih

/-- Claim C7: on a store of capacity 0, every reachable state is the fresh
empty store, any put is a silent no-op (returning successfully and leaving
the store unchanged), and any get returns an absent result. -/
theorem c7_zero_capacity (ops : List (Op K V)) (k : K) (v : V) :
    run 0 ops = some (ClockMap.new 0) ∧
      (ClockMap.new 0 : ClockMap K V).insert k v = some (ClockMap.new 0) ∧
      (ClockMap.new 0 : ClockMap K V).read k = some (ClockMap.new 0, none) :=
  ⟨run_zero ops, rfl, rfl⟩

/-- Claim C10: `ClockMap::read` is guarded — given the key's index record
and an in-bounds slot at its recorded position, it returns the stored value
(setting the slot's `second_chance` flag) exactly when that slot is occupied
by the same key, and otherwise returns absent leaving the store untouched
(no flag is set). -/
theorem c10_read_guard (m : ClockMap K V) (k : K) (me : MapEntry V)
    (os : Option (Entry K)) (h1 : alookup m.value_map k = some me)
    (h2 : m.clock_list.get? me.index = some os) :
    m.read k =
      some (match os with
            | none => (m, none)
            | some e =>
              if e.key = k then
                ({ m with clock_list :=
                     m.clock_list.set me.index (some { e with second_chance := true }) },
                 some me.value)
              else (m, none)) := by
  unfold ClockMap.read
  simp only [h1, h2]
  cases os with
  | none => rfl
  | some e =>
    by_cases he : e.key = k
    · simp [he]
    · simp [he]

/-- The inconsistent one-slot store: key 1 is indexed at slot 0, but slot 0
holds key 2. -/
def mW : ClockMap Nat Nat :=
  { value_map := [(1, ⟨10, 0⟩)]
    clock_list := [some ⟨false, 2⟩]
    pointer := 0
    miss := 0
    capacity := 1 }

/-- Claim C10, witnessed on a store whose indexed slot holds a different
key: read returns absent and leaves the store unchanged. -/
theorem c10_read_guard_witness : mW.read 1 = some (mW, none) := by
  have h := c10_read_guard mW 1 ⟨10, 0⟩ (some ⟨false, 2⟩) rfl rfl
  simpa using h

/-- A sharded cache (2 shards of capacity 0) after `put 5 5`. -/
def cW1 : ClockDashMap Nat Nat :=
  { num_shards := 2
    shards := [ClockMap.new 0, ClockMap.new 0]
    key_shard := [(5, 0)]
    next_modify := 1 }

/-- The cache `cW1` after a further `put 7 7`. -/
def cW2 : ClockDashMap Nat Nat :=
  { num_shards := 2
    shards := [ClockMap.new 0, ClockMap.new 0]
    key_shard := [(5, 0), (7, 1)]
    next_modify := 0 }

/-- Claim C1 amended, witnessed: key 5's recorded shard 0 survives a later
put of key 7. -/
theorem c1_directory_stable_witness : alookup cW2.key_shard 5 = some 0 :=
  c1_directory_stable cW1 cW2 5 0 (DashOp.dput 7 7) rfl rfl
